import Mathlib

/-!
A verification development for the SOLDIER language implementation
(`src/parser.rs`, `src/interp.rs`, `src/reassemble.rs`): a shallow
embedding of its program tree, evaluator and reassembler, together with
theorems settling the specified behaviour against this embedding.

Conventions of the embedding:
* Rust `i128` is modelled as `Int`; the places where the machine width is
  observable (the `i128 as usize` cast in string indexing, `to_le_bytes()[0]`
  in `chr`) take an explicit `% 2^64` resp. `% 2^8`.
* `HashMap<String, String>` (the comment table) is modelled as an
  association list in insertion order; `BTreeMap<String, Value>` (the scope)
  as an association list kept sorted by key, mirroring its ordering.
* Fallible Rust code (`anyhow::Result`) is modelled with `Except Err`,
  one `Err` constructor per distinct `bail!`/`anyhow!` site.
* The evaluator mutates `&mut self`; this is modelled by explicit state
  passing: `interp` returns the value together with the updated state.
* Recursion that Rust bounds only by program behaviour (the `while` loop,
  the recursive grammar) is given a fuel parameter; `Err.outOfFuel` (resp.
  parse failure) marks fuel exhaustion and stands for nontermination.
-/

namespace Soldier

/-! ## Program tree (src/parser.rs) -/

/-- `struct Comment { name: Option<String>, body: String }`. -/
structure Comment where
  name : Option String
  body : String

/-- `enum Ref { CommentRef(String), VarRef(String) }`. -/
inductive Ref where
  | commentRef (name : String)
  | varRef (name : String)

/-- `enum Expr` from src/parser.rs.  `struct Block(pub Vec<Expr>)` is inlined
as `List Expr` (see `Block` below); `Box<Expr>` is just `Expr`.  `While` is
spelled `whileE` because `while` is reserved in Lean.  (src/interp.rs also
matches an `Expr::If` variant, but no such variant exists in the parser of
src/; it is not modelled and no claim concerns it.) -/
inductive Expr where
  | block (exprs : List Expr)
  | ref (r : Ref)
  | comment (c : Comment)
  | assignment (r : Ref) (expr : Expr)
  | intLiteral (n : Int)
  | functionCall (r : Ref) (args : List Expr)
  | whileE (cond : Expr) (body : List Expr)

/-- `struct Block(pub Vec<Expr>)`. -/
abbrev Block := List Expr

/-- `struct Program { block: Block }`. -/
structure Program where
  block : Block

mutual
/-- `find_expr_comments` from src/parser.rs: collect the comment literals of
one expression (traversing blocks, assignment right-hand sides, call
arguments, while conditions and bodies; refs and int literals have none). -/
def find_expr_comments : Expr → List Comment
  | .block exprs => find_exprs_comments exprs
  | .comment c => [c]
  | .assignment _ expr => find_expr_comments expr
  | .functionCall _ args => find_exprs_comments args
  | .whileE cond body => find_expr_comments cond ++ find_exprs_comments body
  | .ref _ => []
  | .intLiteral _ => []
/-- The `for expr in exprs { comments.extend(...) }` loops of
`find_comments`/`find_expr_comments`. -/
def find_exprs_comments : List Expr → List Comment
  | [] => []
  | e :: rest => find_expr_comments e ++ find_exprs_comments rest
end

/-- `find_comments` from src/parser.rs: every comment in the program, in
tree order. -/
def find_comments (program : Program) : List Comment :=
  find_exprs_comments program.block

/-! ## Runtime values (src/interp.rs) -/

/-- The concrete `Function` implementations of src/interp.rs.  The trait
`Function` is open in Rust, but exactly these seven unit structs implement
it in the repository, so `Box<dyn Function>` is modelled as this tag (two
boxed values compare equal under `dyn_partial_eq` iff they have the same
concrete type, i.e. tag equality).  `show` is spelled `showV` because
`show` is reserved in Lean. -/
inductive Builtin where
  | add | eq | not | print | showV | chr | cat
deriving DecidableEq

/-- `enum Value` from src/interp.rs.  `BTreeMap<Value, Value>` is modelled
as its ordered entry list (no code in the repository ever constructs a
non-empty map, so no map operations are needed beyond equality). -/
inductive Value where
  | string (s : String)
  | map (m : List (Value × Value))
  | int (n : Int)
  | func (f : Builtin)
  | bool (b : Bool)

/-- One constructor per distinct `bail!`/`anyhow!`/`?`-conversion site in
src/interp.rs, so that distinct failure messages stay distinguishable.
`outOfFuel` is the fuel-exhaustion marker of the embedding (it corresponds
to no Rust error; it models nontermination being cut off). -/
inductive Err where
  /-- the empty-block failure of the Block case -/
  | emptyBlock
  /-- "undefined comment \x7bname\x7d" (in `get_ref`) -/
  | undefinedComment (name : String)
  /-- "undefined name \x7bname\x7d" (in `get_ref`) -/
  | undefinedName (name : String)
  /-- the could-not-find-comment failure of a comment assignment -/
  | commentNotFound (name : String)
  /-- "\x7bv\x7d is not an integer" (`as_num`) -/
  | notAnInteger (v : Value)
  /-- "\x7bv\x7d is not a bool" (`as_bool`) -/
  | notABool (v : Value)
  /-- "\x7bv\x7d is not a String" (`as_str`) -/
  | notAString (v : Value)
  /-- "\x7bv\x7d is not a function" (`as_func`) -/
  | notAFunction (v : Value)
  /-- "tried to call a \x7bv\x7d" -/
  | triedToCall (v : Value)
  /-- "not enough arguments, was looking for \x7bn\x7d but only \x7blen\x7d were provided" -/
  | notEnoughArguments (wanted : Nat) (got : Nat)
  /-- "duplicate comment: \x7bname\x7d" -/
  | duplicateComment (name : String)
  /-- `std::str::Utf8Error` propagated out of `from_utf8` in `chr` -/
  | invalidUtf8
  /-- fuel exhaustion of the embedding (models a nonterminating run) -/
  | outOfFuel

mutual
/-- Structural equality on `Value`, the embedding of the derived
`PartialEq` used by `lhs == rhs` in `EqBuiltin` (`BTreeMap` equality is
entrywise in order; `dyn_partial_eq` on the unit builtin structs is tag
equality). -/
def valueBeq : Value → Value → Bool
  | .string a, .string b => a = b
  | .map a, .map b => pairsBeq a b
  | .int a, .int b => a = b
  | .func a, .func b => a = b
  | .bool a, .bool b => a = b
  | _, _ => false
def pairsBeq : List (Value × Value) → List (Value × Value) → Bool
  | [], [] => true
  | (k₁, v₁) :: r₁, (k₂, v₂) :: r₂ => valueBeq k₁ k₂ && valueBeq v₁ v₂ && pairsBeq r₁ r₂
  | _, _ => false
end

/-- `Value::as_num`. -/
def as_num : Value → Except Err Int
  | .int n => .ok n
  | v => .error (.notAnInteger v)

/-- `Value::as_bool`. -/
def as_bool : Value → Except Err Bool
  | .bool b => .ok b
  | v => .error (.notABool v)

/-- `Value::as_str`. -/
def as_str : Value → Except Err String
  | .string s => .ok s
  | v => .error (.notAString v)

/-- `Value::as_func`. -/
def as_func : Value → Except Err Builtin
  | .func f => .ok f
  | v => .error (.notAFunction v)

/-- `get_arg` from src/interp.rs. -/
def get_arg (args : List Value) (n : Nat) : Except Err Value :=
  match args[n]? with
  | some v => .ok v
  | none => .error (.notEnoughArguments n args.length)

/-! ## Interpreter state (src/interp.rs) -/

/-- `HashMap::get` on the comment table: first (unique) matching key. -/
def lookupAssoc : List (String × α) → String → Option α
  | [], _ => none
  | (k, v) :: rest, key => if k = key then some v else lookupAssoc rest key

/-- `HashMap::get_mut` followed by `*comment = s`: replace the value stored
at an existing key (keys are unique, so at most one entry changes). -/
def updateAssoc : List (String × α) → String → α → List (String × α)
  | [], _, _ => []
  | (k, v) :: rest, key, a =>
    if k = key then (k, a) :: updateAssoc rest key a else (k, v) :: updateAssoc rest key a

/-- Lexicographic comparison of character lists by code point, the order
`Ord` on Rust `String` realises (UTF-8 byte order coincides with scalar
order). -/
def charsLt : List Char → List Char → Bool
  | [], [] => false
  | [], _ :: _ => true
  | _ :: _, [] => false
  | c :: cs, d :: ds =>
    if c.toNat < d.toNat then true
    else if d.toNat < c.toNat then false
    else charsLt cs ds

/-- `a < b` on Rust strings. -/
def strLt (a b : String) : Bool := charsLt a.data b.data

/-- `BTreeMap::insert` on the scope: insert keeping the list sorted by key,
replacing the value if the key is present. -/
def scopeInsert : List (String × Value) → String → Value → List (String × Value)
  | [], k, v => [(k, v)]
  | (k₀, v₀) :: rest, k, v =>
    if k = k₀ then (k, v) :: rest
    else if strLt k k₀ then (k, v) :: (k₀, v₀) :: rest
    else (k₀, v₀) :: scopeInsert rest k v

/-- `struct Interpreter { scope, comments }`.  The `Rc<RefCell<Scope>>`
wrapper exists in Rust only to share the single mutable scope; with explicit
state passing it disappears. -/
structure Interpreter where
  scope : List (String × Value)
  comments : List (String × String)

/-- `Interpreter::new`: the scope seeded with the seven builtin functions
and the two boolean constants (the same `insert` calls, in source order, on
an empty map); the comment table empty. -/
def Interpreter.new : Interpreter :=
  { scope :=
      scopeInsert (scopeInsert (scopeInsert (scopeInsert (scopeInsert
        (scopeInsert (scopeInsert (scopeInsert (scopeInsert []
          "add" (.func .add))
          "eq" (.func .eq))
          "not" (.func .not))
          "print" (.func .print))
          "show" (.func .showV))
          "chr" (.func .chr))
          "cat" (.func .cat))
          "true" (.bool true))
          "false" (.bool false),
    comments := [] }

/-- `Interpreter::add_comment`: seed one comment into the comment table;
named comments fail on a duplicate name, anonymous comments are skipped. -/
def add_comment (interp : Interpreter) (c : Comment) : Except Err Interpreter :=
  match c.name with
  | none => .ok interp
  | some name =>
    if (lookupAssoc interp.comments name).isSome then
      .error (.duplicateComment name)
    else
      .ok { interp with comments := interp.comments ++ [(name, c.body)] }

/-- `Interpreter::get_ref`: a comment reference reads the comment table, a
variable reference reads the scope; both fail when the name is absent.
(Note: this function performs no special treatment of the name `help`;
`builtin_comment` below is never called from here, nor anywhere else in
src/.) -/
def get_ref (interp : Interpreter) : Ref → Except Err Value
  | .commentRef name =>
    match lookupAssoc interp.comments name with
    | some body => .ok (.string body)
    | none => .error (.undefinedComment name)
  | .varRef name =>
    match lookupAssoc interp.scope name with
    | some v => .ok v
    | none => .error (.undefinedName name)

/-! ## Builtin functions (src/interp.rs)

Each `Function::call` receives `&mut Interpreter`, but none of the seven
implementations touches it, so they are modelled as pure functions of the
argument list.  `PrintBuiltin` writes a debug rendering to stdout; that
side effect leaves the modelled state and is dropped here. -/

/-- `AddBuiltin`: both arguments `Int`, result their sum.  (Rust `i128`
addition can overflow; the claims do not exercise widths near `2^127`, so
the sum is taken in `Int`.) -/
def addCall (args : List Value) : Except Err Value := do
  let lhs ← as_num (← get_arg args 0)
  let rhs ← as_num (← get_arg args 1)
  .ok (.int (lhs + rhs))

/-- `EqBuiltin`: `Bool(lhs == rhs)` (derived structural equality). -/
def eqCall (args : List Value) : Except Err Value := do
  let lhs ← get_arg args 0
  let rhs ← get_arg args 1
  .ok (.bool (valueBeq lhs rhs))

/-- `NotBuiltin`. -/
def notCall (args : List Value) : Except Err Value := do
  let v ← as_bool (← get_arg args 0)
  .ok (.bool (!v))

/-- `PrintBuiltin`: returns its first argument unchanged (the console write
is outside the modelled state). -/
def printCall (args : List Value) : Except Err Value := do
  let v ← get_arg args 0
  .ok v

mutual
/-- Debug rendering of a `Value`: the derived `Debug` used by
`format!("\x7b:?\x7d", ...)`.  A `BTreeMap` debug-prints as
`\x7bk1: v1, k2: v2\x7d` with keys and values debug-printed in turn;
string escaping covers the common escapes (quote, backslash, newline, tab,
carriage return).  No claim exercises this rendering. -/
def valueDebug : Value → String
  | .string s => "String(\"" ++ strEscape s.data ++ "\")"
  | .map m => "Map(\x7b" ++ pairsDebug m ++ "\x7d)"
  | .int n => "Int(" ++ toString n ++ ")"
  | .func f =>
    "Function(" ++
      (match f with
       | .add => "AddBuiltin"
       | .eq => "EqBuiltin"
       | .not => "NotBuiltin"
       | .print => "PrintBuiltin"
       | .showV => "ShowBuiltin"
       | .chr => "ChrBuiltin"
       | .cat => "CatBuiltin") ++ ")"
  | .bool true => "Bool(true)"
  | .bool false => "Bool(false)"
def pairsDebug : List (Value × Value) → String
  | [] => ""
  | [(k, v)] => valueDebug k ++ ": " ++ valueDebug v
  | (k, v) :: rest => valueDebug k ++ ": " ++ valueDebug v ++ ", " ++ pairsDebug rest
def strEscape : List Char → String
  | [] => ""
  | c :: rest =>
    (if c = '"' then "\\\""
     else if c = '\\' then "\\\\"
     else if c = '\n' then "\\n"
     else if c = '\t' then "\\t"
     else if c = '\r' then "\\r"
     else String.mk [c]) ++ strEscape rest
end

/-- `ShowBuiltin`: render any value to a `String`. -/
def showCall (args : List Value) : Except Err Value := do
  let v ← get_arg args 0
  .ok (.string (match v with
    | .string s => s
    | .map m => "\x7b" ++ pairsDebug m ++ "\x7d"
    | .int n => toString n
    | .func _ => "<function>"
    | .bool true => "true"
    | .bool false => "false"))

/-- `ChrBuiltin`: `to_le_bytes()[0]` of the `i128` argument is its low byte,
i.e. the argument mod `2^8` as an unsigned byte; `from_utf8` on that single
byte succeeds exactly for bytes below `0x80`, yielding the one-character
string with that code point. -/
def chrCall (args : List Value) : Except Err Value := do
  let n ← as_num (← get_arg args 0)
  let byte := (n % 256).toNat
  if byte < 128 then
    .ok (.string (String.mk [Char.ofNat byte]))
  else
    .error .invalidUtf8

/-- The `for arg in args` accumulation loop of `CatBuiltin`. -/
def catGo : List Value → String → Except Err Value
  | [], acc => .ok (.string acc)
  | v :: rest, acc =>
    match as_str v with
    | .ok s => catGo rest (acc ++ s)
    | .error e => .error e

/-- `CatBuiltin`: concatenate all arguments, each of which must be a
string. -/
def catCall (args : List Value) : Except Err Value :=
  catGo args ""

/-- Dispatch `Function::call` on the builtin tag. -/
def callBuiltin : Builtin → List Value → Except Err Value
  | .add, args => addCall args
  | .eq, args => eqCall args
  | .not, args => notCall args
  | .print, args => printCall args
  | .showV, args => showCall args
  | .chr, args => chrCall args
  | .cat, args => catCall args

/-- The `Value::String` arm of the `Expr::FunctionCall` case of
`Interpreter::interp`: calling a string indexes into it.  The index is an
`i128` cast with `as usize` (64-bit host), i.e. reduced mod `2^64`;
`s.chars().nth(k)` yields the character at that position or, off the end,
`Bool(false)`. -/
def indexString (s : String) (args : List Value) : Except Err Value := do
  let index ← as_num (← get_arg args 0)
  let k := (index % (2 ^ 64)).toNat
  match s.data[k]? with
  | some c => .ok (.string (String.mk [c]))
  | none => .ok (.bool false)

/-! ## Help text (src/interp.rs) -/

/-- `WELCOME_TEXT` from src/interp.rs. -/
def WELCOME_TEXT : String :=
  "Help for the Zac Programming Language (https://github.com/sumeet/Zac)\n\nDefine a comment with the first line set to an identifier (like #help) and it will be a first-class\nstring usable inside of your program. You can read from it, and if you write to it, the change will\nbe reflected inside the source file."

/-- `CHUNK_SIZE` from src/interp.rs. -/
def CHUNK_SIZE : Nat := 10

/-- `itertools::chunks(CHUNK_SIZE)`: split a list into consecutive runs of
at most `CHUNK_SIZE` elements (the first argument is fuel bounding the
recursion by the list length). -/
def chunksOf : Nat → List String → List (List String)
  | 0, _ => []
  | _, [] => []
  | f + 1, l => l.take CHUNK_SIZE :: chunksOf f (l.drop CHUNK_SIZE)

/-- Modelled from the spec: `tableize` lays names out "in fixed-size rows
(10 entries per row)".  The exact cell padding is produced by the external
`prettytable` crate (`FORMAT_CLEAN`), whose source is not part of this
repository; it is modelled as one line per row with the row entries
space-separated.  No claim depends on the rendering, only on the text
being produced at all. -/
def tableize (names : List String) : String :=
  String.join ((chunksOf names.length names).map
    (fun row => " " ++ String.intercalate "  " row ++ " \n"))

/-- Rust `str::trim_end` (trailing whitespace removed), as used at the end
of `generate_help_text`.  Rust trims Unicode whitespace; only ASCII
whitespace occurs in the help text. -/
def trimEndWs (s : String) : String :=
  String.mk ((s.data.reverse.dropWhile Char.isWhitespace).reverse)

/-- `generate_help_text` from src/interp.rs: partition the scope (in map
order) into builtin-function names and other variable names by whether
`as_func` succeeds, then welcome text, the function table, the variable
table, trailing whitespace trimmed. -/
def generate_help_text (interp : Interpreter) : String :=
  let function_names := (interp.scope.filter (fun p => (as_func p.2).isOk)).map (·.1)
  let variable_names := (interp.scope.filter (fun p => !(as_func p.2).isOk)).map (·.1)
  trimEndWs
    (WELCOME_TEXT ++ "\n\nBuiltin functions:\n" ++ tableize function_names ++
      "\nAvailable variables\n" ++ tableize variable_names)

/-- `builtin_comment` from src/interp.rs: the reserved name `help` yields
the synthesized help text, every other name yields `None`.  (This function
is `pub` but has no caller anywhere in src/.) -/
def builtin_comment (interp : Interpreter) (name : String) : Option String :=
  if name = "help" then some (generate_help_text interp) else none

/-! ## Seeding the comment table -/

/-- Modelled from the spec: the host (outside src/) is to "seed the comment
table from every named comment found by a full tree scan", i.e. fold
`Interpreter::add_comment` over the comments in tree order, stopping at the
first failure.  `add_comment` and the tree scan `find_comments` are both
code of src/. -/
def seed_comments : Interpreter → List Comment → Except Err Interpreter
  | interp, [] => .ok interp
  | interp, c :: rest =>
    match add_comment interp c with
    | .error e => .error e
    | .ok interp₂ => seed_comments interp₂ rest

/-- Seed a fresh interpreter from the whole program (the comment-indexer
pre-pass of the spec). -/
def seed_program (p : Program) : Except Err Interpreter :=
  seed_comments Interpreter.new (find_comments p)

/-! ## The evaluator (`Interpreter::interp`, src/interp.rs)

The first argument of each function is fuel: every recursive call steps it
down, and exhaustion yields `Err.outOfFuel`.  The Rust code has no such
bound; a run that returns `.ok`/a genuine `.error` for some fuel is exactly
a run of the Rust evaluator. -/

mutual
/-- `Interpreter::interp`, case for case.  The `for` loop over the rest of
a block is `interpSeq`; left-to-right argument evaluation is `interpArgs`;
the `while` loop with its iteration counter is `runWhile`. -/
def interp : Nat → Interpreter → Expr → Except Err (Value × Interpreter)
  | 0, _, _ => .error .outOfFuel
  | fuel + 1, I, e =>
    match e with
    | .block exprs =>
      match exprs with
      | [] => .error .emptyBlock
      | first :: rest =>
        match interp fuel I first with
        | .error er => .error er
        | .ok (v, I₁) => interpSeq fuel I₁ v rest
    | .comment c => .ok (.string c.body, I)
    | .assignment r expr =>
      match interp fuel I expr with
      | .error er => .error er
      | .ok (val, I₁) =>
        match r with
        | .commentRef name =>
          match lookupAssoc I₁.comments name with
          | none => .error (.commentNotFound name)
          | some _ =>
            match as_str val with
            | .error er => .error er
            | .ok s => .ok (val, { I₁ with comments := updateAssoc I₁.comments name s })
        | .varRef name => .ok (val, { I₁ with scope := scopeInsert I₁.scope name val })
    | .intLiteral n => .ok (.int n, I)
    | .ref r =>
      match get_ref I r with
      | .error er => .error er
      | .ok v => .ok (v, I)
    | .functionCall r args =>
      match get_ref I r with
      | .error er => .error er
      | .ok var =>
        match interpArgs fuel I args with
        | .error er => .error er
        | .ok (vals, I₁) =>
          match var with
          | .func f =>
            match callBuiltin f vals with
            | .error er => .error er
            | .ok v => .ok (v, I₁)
          | .string s =>
            match indexString s vals with
            | .error er => .error er
            | .ok v => .ok (v, I₁)
          | v => .error (.triedToCall v)
    | .whileE cond body => runWhile fuel I cond body 0

/-- The `for expr in exprs { res = self.interp(expr)? }` tail of the
`Expr::Block` case: thread the state through the remaining expressions,
returning the last value. -/
def interpSeq : Nat → Interpreter → Value → List Expr → Except Err (Value × Interpreter)
  | 0, _, _, _ => .error .outOfFuel
  | _ + 1, I, last, [] => .ok (last, I)
  | fuel + 1, I, _, e :: rest =>
    match interp fuel I e with
    | .error er => .error er
    | .ok (v, I₁) => interpSeq fuel I₁ v rest

/-- Left-to-right evaluation of call arguments
(`args.iter().map(|e| self.interp(e)).collect()`). -/
def interpArgs : Nat → Interpreter → List Expr → Except Err (List Value × Interpreter)
  | 0, _, _ => .error .outOfFuel
  | _ + 1, I, [] => .ok ([], I)
  | fuel + 1, I, e :: rest =>
    match interp fuel I e with
    | .error er => .error er
    | .ok (v, I₁) =>
      match interpArgs fuel I₁ rest with
      | .error er => .error er
      | .ok (vs, I₂) => .ok (v :: vs, I₂)

/-- The `Expr::While` loop: evaluate the condition (it must be a bool);
while it holds, evaluate the body as a block and count the iteration;
the result is the final count as an `Int`. -/
def runWhile : Nat → Interpreter → Expr → List Expr → Int → Except Err (Value × Interpreter)
  | 0, _, _, _, _ => .error .outOfFuel
  | fuel + 1, I, cond, body, count =>
    match interp fuel I cond with
    | .error er => .error er
    | .ok (v, I₁) =>
      match as_bool v with
      | .error er => .error er
      | .ok b =>
        if b then
          match interp fuel I₁ (.block body) with
          | .error er => .error er
          | .ok (_, I₂) => runWhile fuel I₂ cond body (count + 1)
        else
          .ok (.int count, I₁)
end

/-! ## The reassembler (src/reassemble.rs)

src/reassemble.rs matches the shape of an earlier program tree: its
`Expr::Comment(ref body)` arm reads the comment as a body string (calling
`body.lines()`), and its `Expr::Assignment` arm reads a field `name` that
the tree of src/parser.rs does not have (the field is `ref`).  The comment
arm is therefore modelled as reading the body stored in the tree node, and
the assignment target — modelled from the spec: "keyword `let`, space, the
textual form of the reference, ` = `, the value expression" — is rendered with
`assemble_ref`, the renderer the file itself uses for references everywhere
else.  Note that `assemble_program` consumes only the `Program`: no comment
table is passed in anywhere. -/

/-- Split a character list at every newline character (the pieces, in
order; a trailing newline yields a trailing empty piece). -/
def splitLines : List Char → List (List Char)
  | [] => [[]]
  | c :: rest =>
    if c = '\n' then [] :: splitLines rest
    else
      match splitLines rest with
      | [] => [[c]]
      | l :: ls => (c :: l) :: ls

/-- Drop the final piece when it is empty (a trailing newline, or an empty
string, produces no final line in Rust). -/
def dropFinalEmpty : List (List Char) → List (List Char)
  | [] => []
  | [[]] => []
  | [l] => [l]
  | l :: rest => l :: dropFinalEmpty rest

/-- Strip one trailing carriage return from a line. -/
def stripCr (l : List Char) : List Char :=
  match l.reverse with
  | '\r' :: r => r.reverse
  | _ => l

/-- Rust `str::lines`: split on newlines, no final empty line, each line
with a trailing carriage return removed. -/
def rustLines (s : String) : List String :=
  (dropFinalEmpty (splitLines s.data)).map (fun l => String.mk (stripCr l))

/-- `assemble_ref` from src/reassemble.rs: a comment reference renders as
`#name`, a variable reference as the bare name. -/
def assemble_ref (r : Ref) (assembled : String) : String :=
  match r with
  | .commentRef s => assembled ++ "#" ++ s
  | .varRef s => assembled ++ s

/-- The `Expr::Comment` arm of `assemble_expr`: each line of the body kept
in the tree node, prefixed with `// `, with a newline between lines (none
after the last; an empty body emits nothing). -/
def assembleCommentLines (assembled : String) : List String → String
  | [] => assembled
  | [l] => assembled ++ "// " ++ l
  | l :: rest => assembleCommentLines (assembled ++ "// " ++ l ++ "\n") rest

mutual
/-- `assemble_expr` from src/reassemble.rs (the `&mut String` output buffer
becomes an accumulator that the function extends and returns). -/
def assemble_expr (assembled : String) : Expr → String
  | .block exprs => assembleBlockExprs assembled exprs
  | .comment c => assembleCommentLines assembled (rustLines c.body)
  | .assignment r expr => assemble_expr (assembled ++ "let " ++ assemble_ref r "" ++ " = ") expr
  | .intLiteral n => assembled ++ toString n
  | .ref r => assemble_ref r assembled
  | .functionCall r args => assembleArgs (assemble_ref r assembled ++ "(") args ++ ")"
  | .whileE cond body =>
    assembleBlockExprs (assemble_expr (assembled ++ "while (") cond ++ ") \x7b\n") body ++ "\n\x7d"
/-- The `Expr::Block` arm: each child expression followed by a newline. -/
def assembleBlockExprs (assembled : String) : List Expr → String
  | [] => assembled
  | e :: rest => assembleBlockExprs (assemble_expr assembled e ++ "\n") rest
/-- The argument list of a call, comma-separated (`split_last`: every
argument but the last is followed by a comma). -/
def assembleArgs (assembled : String) : List Expr → String
  | [] => assembled
  | [last] => assemble_expr assembled last
  | a :: rest => assembleArgs (assemble_expr assembled a ++ ",") rest
end

/-- `assemble_program` from src/reassemble.rs: assemble the program block
into an (initially empty) buffer.  A pure function of the tree alone. -/
def assemble_program (program : Program) : String :=
  assemble_expr "" (.block program.block)

/-! ## The parser (src/parser.rs, a `peg::parser!` grammar)

PEG semantics of the `peg` crate, which the embedding follows: ordered
choice (`/`) commits to the first alternative that matches; repetition
(`*`, `+`, `?`) is greedy and, once an element has matched, never gives
characters back to what follows; `e ** sep` additionally un-consumes a
trailing separator whose following element fails; a `pub rule` entry point
succeeds only if the whole input is consumed.  Each rule becomes a function
from the remaining input to an optional (result, rest) pair; the mutually
recursive rules take fuel (stepped down on every nested rule entry), and
`parse` supplies fuel amply exceeding the recursion depth any input of its
length can force.

Two consequences of the grammar as written, used by the theorems below:
the rule `_` is `quiet!{ whitespace() }` where `whitespace()` is
`(nbspace() / newline())+` — one or MORE whitespace characters, so the
`block()` rule demands nonempty whitespace both before and after its
expressions — and the `expr()` alternation is
`comment() / assignment() / int() / func_call() / ref()`, which never
mentions `while_loop()`. -/

/-- `[' ' | '\t']` (the characters of `nbspace()`). -/
def isNbChar (c : Char) : Bool := c = ' ' || c = '\t'

/-- The tail of a maximal `(nbspace() / newline())+` run: consume blanks,
tabs, newlines and CRLF pairs (a lone carriage return is not whitespace in
this grammar). -/
def wsTail : List Char → List Char
  | ' ' :: r => wsTail r
  | '\t' :: r => wsTail r
  | '\n' :: r => wsTail r
  | '\r' :: '\n' :: r => wsTail r
  | l => l

/-- The rule `_` = `whitespace()` = `(nbspace() / newline())+`: at least one
whitespace character, consumed greedily. -/
def pWs : List Char → Option (List Char)
  | ' ' :: r => some (wsTail r)
  | '\t' :: r => some (wsTail r)
  | '\n' :: r => some (wsTail r)
  | '\r' :: '\n' :: r => some (wsTail r)
  | _ => none

/-- `_?`: optional whitespace (and also `_*`, since one whitespace run is
already maximal, a second iteration can never match). -/
def pWsOpt (l : List Char) : List Char :=
  match pWs l with
  | some r => r
  | none => l

/-- `newline()` = `"\n" / "\r\n"`. -/
def pNewline : List Char → Option (List Char)
  | '\n' :: r => some r
  | '\r' :: '\n' :: r => some r
  | _ => none

/-- `['a'..='z' | 'A'..='Z' | '_']` (the class of `ident_start()`). -/
def isIdentStart (c : Char) : Bool :=
  ('a' ≤ c && c ≤ 'z') || ('A' ≤ c && c ≤ 'Z') || c = '_'

/-- `['a'..='z' | 'A'..='Z' | '_' | '0'..='9']`. -/
def isIdentCont (c : Char) : Bool :=
  isIdentStart c || ('0' ≤ c && c ≤ '9')

/-- `ident()` = `$(ident_start()+ [cont]*)`: a maximal run of identifier
characters whose first character is a letter or underscore. -/
def pIdent (l : List Char) : Option (String × List Char) :=
  match l with
  | c :: _ =>
    if isIdentStart c then
      some (String.mk (l.takeWhile isIdentCont), l.dropWhile isIdentCont)
    else none
  | [] => none

/-- `comment_ident()` = `"#" ident()`. -/
def pCommentIdent : List Char → Option (String × List Char)
  | '#' :: r => pIdent r
  | _ => none

/-- `['0'..='9']`. -/
def isDigitCh (c : Char) : Bool := '0' ≤ c && c ≤ '9'

/-- The numeric value of a digit run.  (Rust calls `num.parse::<i128>()`
and `unwrap`s it, panicking past `i128::MAX`; literals of that size are
outside every claim and the value is taken in `Int`.) -/
def digitsVal (l : List Char) : Int :=
  l.foldl (fun a c => a * 10 + ((c.toNat - '0'.toNat : Nat) : Int)) 0

/-- `int()` = `$(['1'..='9']+ ['0'..='9']*)`: a maximal digit run whose
first digit is nonzero (so neither `0` nor any negative literal parses). -/
def pInt (l : List Char) : Option (Expr × List Char) :=
  match l with
  | c :: _ =>
    if '1' ≤ c && c ≤ '9' then
      some (.intLiteral (digitsVal (l.takeWhile isDigitCh)), l.dropWhile isDigitCh)
    else none
  | [] => none

/-- `c.trim_start_matches("//")`: strip every leading `//`. -/
def trimStartDoubleSlash : List Char → List Char
  | '/' :: '/' :: r => trimStartDoubleSlash r
  | l => l

/-- The action of `following_comment()`: a continuation line that itself
still starts with `//` (after the marker of its own line was consumed)
opens a new paragraph — `"\n\n"` plus the line with its leading `//`s and
leading whitespace stripped; any other line is passed through.  (Rust
`trim_start` strips Unicode whitespace; only ASCII occurs here.) -/
def transformFollowing (c : String) : String :=
  match c.data with
  | '/' :: '/' :: _ =>
    "\n\n" ++ String.mk ((trimStartDoubleSlash c.data).dropWhile Char.isWhitespace)
  | _ => c

mutual
/-- `comment_string()`: `//`, optional whitespace, the rest of the line,
then any following comment lines, all joined with single spaces. -/
def pCommentString : Nat → List Char → Option (String × List Char)
  | 0, _ => none
  | f + 1, l =>
    match l with
    | '/' :: '/' :: r =>
      let r₁ := pWsOpt r
      let body := String.mk (r₁.takeWhile (fun c => !(c = '\r' || c = '\n')))
      let r₂ := r₁.dropWhile (fun c => !(c = '\r' || c = '\n'))
      let (following, r₃) := pFollowingMany f r₂
      some (String.intercalate " " (body :: following), r₃)
    | _ => none
/-- `following_comment()` = `newline() comment_string()`, transformed. -/
def pFollowing : Nat → List Char → Option (String × List Char)
  | 0, _ => none
  | f + 1, l =>
    match pNewline l with
    | none => none
    | some r =>
      match pCommentString f r with
      | none => none
      | some (c, r₂) => some (transformFollowing c, r₂)
/-- `following_comment()*`. -/
def pFollowingMany : Nat → List Char → (List String × List Char)
  | 0, l => ([], l)
  | f + 1, l =>
    match pFollowing f l with
    | none => ([], l)
    | some (s, r) =>
      let (ss, r₂) := pFollowingMany f r
      (s :: ss, r₂)
end

/-- `named_comment()`: `//`, optional whitespace, `#ident`, then one
optional following comment line as the body (note: the rest of the name
line is NOT consumed; a body only arises from following lines). -/
def pNamedComment : Nat → List Char → Option (Expr × List Char)
  | 0, _ => none
  | f + 1, l =>
    match l with
    | '/' :: '/' :: r =>
      let r₁ := pWsOpt r
      match pCommentIdent r₁ with
      | none => none
      | some (name, r₂) =>
        match pFollowing f r₂ with
        | some (body, r₃) => some (.comment ⟨some name, body⟩, r₃)
        | none => some (.comment ⟨some name, ""⟩, r₂)
    | _ => none

/-- `comment()` = `named_comment() / anon_comment()`. -/
def pComment : Nat → List Char → Option (Expr × List Char)
  | 0, _ => none
  | f + 1, l =>
    match pNamedComment f l with
    | some res => some res
    | none =>
      match pCommentString f l with
      | some (body, r) => some (.comment ⟨none, body⟩, r)
      | none => none

/-- `var_ref()` = `ident()` as a `VarRef`. -/
def pVarRef (l : List Char) : Option (Ref × List Char) :=
  (pIdent l).map fun (s, r) => (.varRef s, r)

/-- `comment_ref()` = `comment_ident()` as a `CommentRef`. -/
def pCommentRef (l : List Char) : Option (Ref × List Char) :=
  (pCommentIdent l).map fun (s, r) => (.commentRef s, r)

/-- `ref_ref()` = `var_ref() / comment_ref()`. -/
def pRefRef (l : List Char) : Option (Ref × List Char) :=
  match pVarRef l with
  | some res => some res
  | none => pCommentRef l

/-- `r#ref()`: a bare reference as an expression. -/
def pRefExpr (l : List Char) : Option (Expr × List Char) :=
  (pRefRef l).map fun (r, rest) => (Expr.ref r, rest)

/-- `,` surrounded by optional whitespace (`comma()`). -/
def pComma (l : List Char) : Option (List Char) :=
  match pWsOpt l with
  | ',' :: r => some (pWsOpt r)
  | _ => none

mutual
/-- `assignment()` = `"let" _ ref_ref() _ "=" _ expr()` (all three
whitespace runs mandatory). -/
def pAssignment : Nat → List Char → Option (Expr × List Char)
  | 0, _ => none
  | f + 1, l =>
    match l with
    | 'l' :: 'e' :: 't' :: r =>
      match pWs r with
      | none => none
      | some r₁ =>
        match pRefRef r₁ with
        | none => none
        | some (target, r₂) =>
          match pWs r₂ with
          | none => none
          | some r₃ =>
            match r₃ with
            | '=' :: r₄ =>
              match pWs r₄ with
              | none => none
              | some r₅ =>
                match pExpr f r₅ with
                | none => none
                | some (e, r₆) => some (.assignment target e, r₆)
            | _ => none
    | _ => none
/-- `func_call()` = `var_ref() "(" _? (expr() ** comma()) _? ")"`. -/
def pFuncCall : Nat → List Char → Option (Expr × List Char)
  | 0, _ => none
  | f + 1, l =>
    match pVarRef l with
    | none => none
    | some (target, r) =>
      match r with
      | '(' :: r₁ =>
        let r₂ := pWsOpt r₁
        let (args, r₃) := pExprList f r₂
        let r₄ := pWsOpt r₃
        match r₄ with
        | ')' :: r₅ => some (.functionCall target args, r₅)
        | _ => none
      | _ => none
/-- `expr() ** comma()`: zero or more expressions, comma-separated. -/
def pExprList : Nat → List Char → (List Expr × List Char)
  | 0, l => ([], l)
  | f + 1, l =>
    match pExpr f l with
    | none => ([], l)
    | some (e, r) =>
      let (es, r₂) := pExprListRest f r
      (e :: es, r₂)
/-- The separated tail of `expr() ** comma()`; a separator whose following
expression fails is un-consumed. -/
def pExprListRest : Nat → List Char → (List Expr × List Char)
  | 0, l => ([], l)
  | f + 1, l =>
    match pComma l with
    | none => ([], l)
    | some r =>
      match pExpr f r with
      | none => ([], l)
      | some (e, r₂) =>
        let (es, r₃) := pExprListRest f r₂
        (e :: es, r₃)
/-- `expr()` = `comment() / assignment() / int() / func_call() / r#ref()`.
`while_loop()` does not appear among the alternatives. -/
def pExpr : Nat → List Char → Option (Expr × List Char)
  | 0, _ => none
  | f + 1, l =>
    match pComment f l with
    | some res => some res
    | none =>
      match pAssignment f l with
      | some res => some res
      | none =>
        match pInt l with
        | some res => some res
        | none =>
          match pFuncCall f l with
          | some res => some res
          | none => pRefExpr l
end

mutual
/-- `block()` = `_ (expr() ** _) _`: mandatory whitespace, expressions
separated by whitespace, mandatory whitespace. -/
def pBlock : Nat → List Char → Option (Block × List Char)
  | 0, _ => none
  | f + 1, l =>
    match pWs l with
    | none => none
    | some r =>
      let (exprs, r₂) := pBlockList f r
      match pWs r₂ with
      | none => none
      | some r₃ => some (exprs, r₃)
/-- `expr() ** _` (first element). -/
def pBlockList : Nat → List Char → (List Expr × List Char)
  | 0, l => ([], l)
  | f + 1, l =>
    match pExpr f l with
    | none => ([], l)
    | some (e, r) =>
      let (es, r₂) := pBlockRest f r
      (e :: es, r₂)
/-- `expr() ** _` (separated tail); a separator whose following expression
fails is un-consumed. -/
def pBlockRest : Nat → List Char → (List Expr × List Char)
  | 0, l => ([], l)
  | f + 1, l =>
    match pWs l with
    | none => ([], l)
    | some r =>
      match pExpr f r with
      | none => ([], l)
      | some (e, r₂) =>
        let (es, r₃) := pBlockRest f r₂
        (e :: es, r₃)
end

/-- The opening brace character (written by code point to keep braces out
of literals). -/
def lbrace : Char := Char.ofNat 123

/-- The closing brace character. -/
def rbrace : Char := Char.ofNat 125

/-- `while_loop()` = `"while(" _? expr() ")" _* lbrace _? block() _? rbrace`.
This rule exists in the grammar but no other rule refers to it. -/
def pWhileLoop : Nat → List Char → Option (Expr × List Char)
  | 0, _ => none
  | f + 1, l =>
    match l with
    | 'w' :: 'h' :: 'i' :: 'l' :: 'e' :: '(' :: r =>
      let r₁ := pWsOpt r
      match pExpr f r₁ with
      | none => none
      | some (cond, r₂) =>
        match r₂ with
        | ')' :: r₃ =>
          let r₄ := pWsOpt r₃
          match r₄ with
          | c :: r₅ =>
            if c = lbrace then
              let r₆ := pWsOpt r₅
              match pBlock f r₆ with
              | none => none
              | some (body, r₇) =>
                let r₈ := pWsOpt r₇
                match r₈ with
                | c₂ :: r₉ => if c₂ = rbrace then some (.whileE cond body, r₉) else none
                | [] => none
            else none
          | [] => none
        | _ => none
    | _ => none

/-- `parser::program(input)`: parse `block()` and require the whole input
to be consumed (the contract of a `pub rule` entry point).  The fuel
comfortably exceeds the rule-nesting depth an input of this length can
reach (every chain of more than two nested rule entries consumes at least
one character). -/
def parse (s : String) : Option Program :=
  match pBlock (2 * s.data.length + 2) s.data with
  | some (b, []) => some ⟨b⟩
  | _ => none

/-! ## Fixtures used by the theorems -/

/-- The names of the named comments of a list, in order. -/
def namedNames (cs : List Comment) : List String := cs.filterMap Comment.name

/-- A state in which the variable `s` holds the string `"hi"` (as after
`let s = ...`). -/
def hiInterp : Interpreter :=
  { Interpreter.new with scope := scopeInsert Interpreter.new.scope "s" (.string "hi") }

/-- The mutation scenario: a named comment `c` with the given initial body,
followed by an assignment overwriting `#c` with a new body (the right-hand
side is an anonymous comment, the language form of a string literal). -/
def mutProgram (body new : String) : Program :=
  ⟨[.comment ⟨some "c", body⟩, .assignment (.commentRef "c") (.comment ⟨none, new⟩)]⟩

/-! ## Supporting lemmas -/

/-- A value that is not an `Int` makes `as_num` fail with that value. -/
theorem as_num_of_not_int : ∀ (v : Value), (∀ n, v ≠ .int n) → as_num v = .error (.notAnInteger v)
  | .string _, _ => rfl
  | .map _, _ => rfl
  | .int n, h => absurd rfl (h n)
  | .func _, _ => rfl
  | .bool _, _ => rfl

mutual
/-- Structural equality on values is reflexive. -/
theorem valueBeq_refl : ∀ v, valueBeq v v = true
  | .string _ => by simp [valueBeq]
  | .map m => by simp [valueBeq, pairsBeq_refl m]
  | .int _ => by simp [valueBeq]
  | .func _ => by simp [valueBeq]
  | .bool _ => by simp [valueBeq]
/-- Entry-list equality is reflexive. -/
theorem pairsBeq_refl : ∀ m, pairsBeq m m = true
  | [] => by simp [pairsBeq]
  | (k, v) :: r => by simp [pairsBeq, valueBeq_refl k, valueBeq_refl v, pairsBeq_refl r]
end

mutual
/-- Structural equality on values is symmetric. -/
theorem valueBeq_symm : ∀ a b, valueBeq a b = valueBeq b a
  | .string _, .string _ => by simp [valueBeq, eq_comm]
  | .map a, .map b => by simp [valueBeq, pairsBeq_symm a b]
  | .int _, .int _ => by simp [valueBeq, eq_comm]
  | .func _, .func _ => by simp [valueBeq, eq_comm]
  | .bool _, .bool _ => by simp [valueBeq, eq_comm]
  | .string _, .map _ => by simp [valueBeq]
  | .string _, .int _ => by simp [valueBeq]
  | .string _, .func _ => by simp [valueBeq]
  | .string _, .bool _ => by simp [valueBeq]
  | .map _, .string _ => by simp [valueBeq]
  | .map _, .int _ => by simp [valueBeq]
  | .map _, .func _ => by simp [valueBeq]
  | .map _, .bool _ => by simp [valueBeq]
  | .int _, .string _ => by simp [valueBeq]
  | .int _, .map _ => by simp [valueBeq]
  | .int _, .func _ => by simp [valueBeq]
  | .int _, .bool _ => by simp [valueBeq]
  | .func _, .string _ => by simp [valueBeq]
  | .func _, .map _ => by simp [valueBeq]
  | .func _, .int _ => by simp [valueBeq]
  | .func _, .bool _ => by simp [valueBeq]
  | .bool _, .string _ => by simp [valueBeq]
  | .bool _, .map _ => by simp [valueBeq]
  | .bool _, .int _ => by simp [valueBeq]
  | .bool _, .func _ => by simp [valueBeq]
/-- Entry-list equality is symmetric. -/
theorem pairsBeq_symm : ∀ a b, pairsBeq a b = pairsBeq b a
  | [], [] => by simp [pairsBeq]
  | (k₁, v₁) :: r₁, (k₂, v₂) :: r₂ => by
    simp [pairsBeq, valueBeq_symm k₁ k₂, valueBeq_symm v₁ v₂, pairsBeq_symm r₁ r₂]
  | [], _ :: _ => by simp [pairsBeq]
  | _ :: _, [] => by simp [pairsBeq]
end

/-- `indexString` unfolded on a single int argument: the index is reduced
mod `2^64` before the character lookup. -/
theorem indexString_int (s : String) (i : Int) :
    indexString s [.int i] =
      match s.data[(i % (2 ^ 64)).toNat]? with
      | some c => .ok (.string (String.mk [c]))
      | none => .ok (.bool false) := rfl

/-- In-place update of one entry never changes the key list. -/
theorem updateAssoc_keys (l : List (String × α)) (k : String) (a : α) :
    (updateAssoc l k a).map Prod.fst = l.map Prod.fst := by
  induction l with
  | nil => rfl
  | cons p rest ih =>
    obtain ⟨k₀, v₀⟩ := p
    by_cases hk : k₀ = k <;> simp [updateAssoc, hk, ih]

/-- Evaluation never adds or removes comment-table keys: the only write to
the comment table anywhere in the evaluator is the in-place update of an
already existing entry. -/
theorem comment_keys_preserved :
    ∀ fuel : Nat,
      (∀ I e v I', interp fuel I e = .ok (v, I') →
        I'.comments.map Prod.fst = I.comments.map Prod.fst) ∧
      (∀ I last es v I', interpSeq fuel I last es = .ok (v, I') →
        I'.comments.map Prod.fst = I.comments.map Prod.fst) ∧
      (∀ I es vs I', interpArgs fuel I es = .ok (vs, I') →
        I'.comments.map Prod.fst = I.comments.map Prod.fst) ∧
      (∀ I cond body cnt v I', runWhile fuel I cond body cnt = .ok (v, I') →
        I'.comments.map Prod.fst = I.comments.map Prod.fst) := by
  intro fuel
  induction fuel with
  | zero =>
    refine ⟨?_, ?_, ?_, ?_⟩
    · intro I e v I' h
      simp [interp] at h
    · intro I last es v I' h
      simp [interpSeq] at h
    · intro I es vs I' h
      simp [interpArgs] at h
    · intro I cond body cnt v I' h
      simp [runWhile] at h
  | succ f ih =>
    obtain ⟨ihI, ihS, ihA, ihW⟩ := ih
    refine ⟨?_, ?_, ?_, ?_⟩
    · intro I e v I' h
      cases e with
      | block exprs =>
        simp only [interp] at h
        split at h
        · simp at h
        · split at h
          · simp at h
          · rename_i first rest v₁ I₁ heq
            exact (ihS _ _ _ _ _ h).trans (ihI _ _ _ _ heq)
      | ref r =>
        simp only [interp] at h
        split at h
        · simp at h
        · simp at h
          exact h.2 ▸ rfl
      | comment c =>
        simp only [interp] at h
        simp at h
        exact h.2 ▸ rfl
      | assignment r expr =>
        simp only [interp] at h
        split at h
        · simp at h
        · rename_i val I₁ heq
          split at h
          · split at h
            · simp at h
            · split at h
              · simp at h
              · rename_i name hlook s hstr
                simp at h
                obtain ⟨h₁, h₂⟩ := h
                subst h₂
                simpa [updateAssoc_keys] using ihI _ _ _ _ heq
          · simp at h
            obtain ⟨h₁, h₂⟩ := h
            subst h₂
            simpa using ihI _ _ _ _ heq
      | intLiteral n =>
        simp only [interp] at h
        simp at h
        exact h.2 ▸ rfl
      | functionCall r args =>
        simp only [interp] at h
        split at h
        · simp at h
        · split at h
          · simp at h
          · rename_i var vals I₁ heq
            split at h
            · split at h
              · simp at h
              · simp at h
                obtain ⟨h₁, h₂⟩ := h
                subst h₂
                exact ihA _ _ _ _ heq
            · split at h
              · simp at h
              · simp at h
                obtain ⟨h₁, h₂⟩ := h
                subst h₂
                exact ihA _ _ _ _ heq
            · simp at h
      | whileE cond body =>
        simp only [interp] at h
        exact ihW _ _ _ _ _ _ h
    · intro I last es v I' h
      cases es with
      | nil =>
        simp only [interpSeq] at h
        simp at h
        exact h.2 ▸ rfl
      | cons e rest =>
        simp only [interpSeq] at h
        split at h
        · simp at h
        · rename_i v₁ I₁ heq
          exact (ihS _ _ _ _ _ h).trans (ihI _ _ _ _ heq)
    · intro I es vs I' h
      cases es with
      | nil =>
        simp only [interpArgs] at h
        simp at h
        exact h.2 ▸ rfl
      | cons e rest =>
        simp only [interpArgs] at h
        split at h
        · simp at h
        · rename_i v₁ I₁ heq
          split at h
          · simp at h
          · rename_i vs₂ I₂ heq₂
            simp at h
            obtain ⟨h₁, h₂⟩ := h
            subst h₂
            exact (ihA _ _ _ _ heq₂).trans (ihI _ _ _ _ heq)
    · intro I cond body cnt v I' h
      simp only [runWhile] at h
      split at h
      · simp at h
      · rename_i v₁ I₁ heq
        split at h
        · simp at h
        · rename_i b hbool
          split at h
          · split at h
            · simp at h
            · rename_i htrue v₂ I₂ heq₂
              exact (ihW _ _ _ _ _ _ h).trans ((ihI _ _ _ _ heq₂).trans (ihI _ _ _ _ heq))
          · simp at h
            obtain ⟨h₁, h₂⟩ := h
            subst h₂
            exact ihI _ _ _ _ heq

/-- A lookup succeeds exactly for the stored keys. -/
theorem lookupAssoc_isSome_iff (l : List (String × α)) (k : String) :
    (lookupAssoc l k).isSome = true ↔ k ∈ l.map Prod.fst := by
  induction l with
  | nil => simp [lookupAssoc]
  | cons p rest ih =>
    obtain ⟨k₀, v₀⟩ := p
    by_cases hk : k₀ = k
    · subst hk
      simp [lookupAssoc]
    · simp [lookupAssoc, hk, ih, List.mem_cons, Ne.symm hk]

/-- A successful `add_comment` either skipped an anonymous comment or
appended one fresh named entry. -/
theorem add_comment_ok_comments (I : Interpreter) (c : Comment) (I₂ : Interpreter)
    (h : add_comment I c = .ok I₂) :
    (c.name = none ∧ I₂ = I) ∨
      (∃ n, c.name = some n ∧ (lookupAssoc I.comments n).isSome = false ∧
        I₂.comments = I.comments ++ [(n, c.body)]) := by
  unfold add_comment at h
  split at h
  · rename_i hn
    left
    simp at h
    exact ⟨hn, h.symm⟩
  · rename_i n hn
    split at h
    · simp at h
    · rename_i hfresh
      right
      refine ⟨n, hn, by simpa using hfresh, ?_⟩
      simp at h
      rw [← h]

/-- The only error `add_comment` raises is a duplicate name. -/
theorem add_comment_error (I : Interpreter) (c : Comment) (e : Err)
    (h : add_comment I c = .error e) : ∃ n, e = .duplicateComment n := by
  unfold add_comment at h
  split at h
  · simp at h
  · rename_i n hn
    split at h
    · simp at h
      exact ⟨n, h.symm⟩
    · simp at h

/-- Successful seeding appends exactly the named-comment names to the key
list, in order. -/
theorem seed_comments_ok_keys :
    ∀ (cs : List Comment) (I I' : Interpreter), seed_comments I cs = .ok I' →
      I'.comments.map Prod.fst = I.comments.map Prod.fst ++ namedNames cs := by
  intro cs
  induction cs with
  | nil =>
    intro I I' h
    simp [seed_comments] at h
    simp [← h, namedNames]
  | cons c rest ih =>
    intro I I' h
    simp only [seed_comments] at h
    split at h
    · simp at h
    · rename_i I₂ heq
      rcases add_comment_ok_comments I c I₂ heq with ⟨hn, rfl⟩ | ⟨n, hn, _, hcomm⟩
      · rw [ih _ _ h]
        simp [namedNames, List.filterMap_cons, hn]
      · rw [ih _ _ h, hcomm]
        simp [namedNames, List.filterMap_cons, hn]

/-- Successful seeding preserves distinctness of the table keys. -/
theorem seed_comments_ok_nodup :
    ∀ (cs : List Comment) (I I' : Interpreter), seed_comments I cs = .ok I' →
      (I.comments.map Prod.fst).Nodup → (I'.comments.map Prod.fst).Nodup := by
  intro cs
  induction cs with
  | nil =>
    intro I I' h hn
    simp [seed_comments] at h
    rwa [← h]
  | cons c rest ih =>
    intro I I' h hn
    simp only [seed_comments] at h
    split at h
    · simp at h
    · rename_i I₂ heq
      refine ih _ _ h ?_
      rcases add_comment_ok_comments I c I₂ heq with ⟨_, rfl⟩ | ⟨n, _, hfresh, hcomm⟩
      · exact hn
      · rw [hcomm]
        simp only [List.map_append]
        rw [List.nodup_append]
        refine ⟨hn, by simp, ?_⟩
        intro a ha hb
        simp at hb
        subst hb
        rw [← lookupAssoc_isSome_iff] at ha
        rw [ha] at hfresh
        cases hfresh

/-- Every seeding failure is a duplicate-name failure. -/
theorem seed_comments_error_shape :
    ∀ (cs : List Comment) (I : Interpreter) (e : Err), seed_comments I cs = .error e →
      ∃ n, e = .duplicateComment n := by
  intro cs
  induction cs with
  | nil => intro I e h; simp [seed_comments] at h
  | cons c rest ih =>
    intro I e h
    simp only [seed_comments] at h
    split at h
    · rename_i heq
      simp at h
      exact h ▸ add_comment_error I c _ heq
    · exact ih _ _ h

/-- Splitting at newlines of a newline-free list is the identity. -/
theorem splitLines_no_newline (l : List Char) (h : ∀ c ∈ l, c ≠ '\n') :
    splitLines l = [l] := by
  induction l with
  | nil => rfl
  | cons c rest ih =>
    have hc : c ≠ '\n' := h c (by simp)
    have ih' := ih (fun d hd => h d (by simp [hd]))
    simp [splitLines, hc, ih']

/-- Stripping a trailing carriage return from a CR-free list is the
identity. -/
theorem stripCr_no_cr (l : List Char) (h : ∀ c ∈ l, c ≠ '\r') : stripCr l = l := by
  unfold stripCr
  cases hr : l.reverse with
  | nil => simp
  | cons c r =>
    have hc : c ≠ '\r' := by
      refine h c ?_
      rw [← List.mem_reverse, hr]
      simp
    simp [hc]

/-- A nonempty single-line body has itself as its only line. -/
theorem rustLines_single_line (s : String) (hne : s ≠ "")
    (h : ∀ c ∈ s.data, c ≠ '\n' ∧ c ≠ '\r') : rustLines s = [s] := by
  obtain ⟨data⟩ := s
  have hd : data ≠ [] := by
    intro habs
    exact hne (by rw [habs])
  unfold rustLines
  rw [splitLines_no_newline _ (fun c hc => (h c hc).1)]
  cases hds : data with
  | nil => exact absurd hds hd
  | cons c cs =>
    show [String.mk (stripCr (c :: cs))] = [String.mk (c :: cs)]
    rw [stripCr_no_cr _ (fun d hdm => (h d (hds ▸ hdm)).2)]

/-- One comment line renders as the marker, a space and the line. -/
theorem assembleCommentLines_single (acc l : String) :
    assembleCommentLines acc [l] = acc ++ "// " ++ l := rfl

/-- On the input `false){}`, `expr()` matches the bare reference `false` for
every positive fuel (the other alternatives fail on the input itself, not
on fuel). -/
theorem pExpr_false_paren :
    ∀ f, pExpr (f + 1) ("false)\x7b\x7d".data)
      = some (.ref (.varRef "false"), ")\x7b\x7d".data) := by
  intro f
  have h3 : pComment f ("false)\x7b\x7d".data) = none := by
    cases f with
    | zero => rfl
    | succ g =>
      have h1 : pNamedComment g ("false)\x7b\x7d".data) = none := by cases g <;> rfl
      have h2 : pCommentString g ("false)\x7b\x7d".data) = none := by cases g <;> rfl
      simp [pComment, h1, h2]
  have h4 : pAssignment f ("false)\x7b\x7d".data) = none := by cases f <;> rfl
  have h5 : pFuncCall f ("false)\x7b\x7d".data) = none := by cases f <;> rfl
  simp [pExpr, h3, h4, h5, show pInt ("false)\x7b\x7d".data) = none from rfl,
    show pRefExpr ("false)\x7b\x7d".data)
      = some (.ref (.varRef "false"), ")\x7b\x7d".data) from rfl]

/-! ## The claims -/

/-- Claim C1 (corrected).  The reassembler serializes a named Comment node
with the body captured in the tree at parse time: `assemble_program` is a
function of the `Program` alone and never consults the comment table, so a
body mutated by the evaluator (here: `#c` overwritten from `body` to `new`,
which the final table reflects) does not appear in the output. -/
theorem reassembler_uses_tree_body :
    ∀ body new : String, body ≠ "" → (∀ c ∈ body.data, c ≠ '\n' ∧ c ≠ '\r') →
      new ≠ "" → (∀ c ∈ new.data, c ≠ '\n' ∧ c ≠ '\r') →
      seed_program (mutProgram body new) = .ok { Interpreter.new with comments := [("c", body)] } ∧
      interp 4 { Interpreter.new with comments := [("c", body)] }
          (.block (mutProgram body new).block)
        = .ok (.string new, { Interpreter.new with comments := [("c", new)] }) ∧
      assemble_program (mutProgram body new) = "// " ++ body ++ "\nlet #c = // " ++ new ++ "\n" := by
  intro body new hb hbc hn hnc
  refine ⟨rfl, rfl, ?_⟩
  unfold assemble_program mutProgram
  simp only [assembleBlockExprs, assemble_expr]
  rw [rustLines_single_line body hb hbc, rustLines_single_line new hn hnc]
  simp only [assembleCommentLines_single, assemble_ref]
  apply String.ext
  simp only [String.data_append, List.append_assoc]
  have e1 : ("" : String).data = [] := rfl
  have e2 : ("// " : String).data = ['/', '/', ' '] := rfl
  have e3 : ("\n" : String).data = ['\n'] := rfl
  have e4 : ("let " : String).data = ['l', 'e', 't', ' '] := rfl
  have e5 : ("#" : String).data = ['#'] := rfl
  have e6 : ("c" : String).data = ['c'] := rfl
  have e7 : (" = " : String).data = [' ', '=', ' '] := rfl
  have e8 : ("\nlet #c = // " : String).data
      = ['\n', 'l', 'e', 't', ' ', '#', 'c', ' ', '=', ' ', '/', '/', ' '] := rfl
  simp [e1, e2, e3, e4, e5, e6, e7, e8]

/-- Witness for C1 at `body = "old"`, `new = "new"`. -/
theorem reassembler_uses_tree_body_witness :
    seed_program (mutProgram "old" "new")
        = .ok { Interpreter.new with comments := [("c", "old")] } ∧
    interp 4 { Interpreter.new with comments := [("c", "old")] }
        (.block (mutProgram "old" "new").block)
      = .ok (.string "new", { Interpreter.new with comments := [("c", "new")] }) ∧
    assemble_program (mutProgram "old" "new") = "// old\nlet #c = // new\n" := by
  have h := reassembler_uses_tree_body "old" "new" (by decide) (by decide) (by decide) (by decide)
  refine ⟨h.1, h.2.1, ?_⟩
  rw [h.2.2]
  rfl

/-- Counterexample to C1 as stated: after evaluation has overwritten the
body of `#c` to `"new"` (visible in the final comment table), the output
still serializes the Comment node as `// old`, not with the current table
body. -/
theorem reassembler_uses_tree_body_cex :
    interp 4 { Interpreter.new with comments := [("c", "old")] }
        (.block (mutProgram "old" "new").block)
      = .ok (.string "new", { Interpreter.new with comments := [("c", "new")] }) ∧
    assemble_program (mutProgram "old" "new") = "// old\nlet #c = // new\n" ∧
    assemble_program (mutProgram "old" "new") ≠ "// new\nlet #c = // new\n" :=
  ⟨rfl, rfl, by decide⟩

/-- Claim C2 (corrected).  The `while_loop` grammar rule is not referenced
from the `expr()` alternation, and the concrete text `while(false)\x7b\x7d`
is not accepted: the top-level `block()` rule rejects it at every fuel
(its mandatory leading whitespace fails at `w`), the `while_loop` rule
itself also rejects the text at every fuel (its `_? block()` sequence
cannot provide the whitespace `block()` demands inside the braces), and
`parse` fails.  What does hold of a While node itself: evaluating one whose
condition reads the builtin `false` yields `Int 0` for any body without
entering it. -/
theorem while_loop_not_parseable :
    (∀ fuel, pBlock fuel ("while(false)\x7b\x7d".data) = none) ∧
    (∀ fuel, pWhileLoop fuel ("while(false)\x7b\x7d".data) = none) ∧
    parse "while(false)\x7b\x7d" = none ∧
    (∀ (fuel : Nat) (body : Block),
      interp (fuel + 3) Interpreter.new (.whileE (.ref (.varRef "false")) body)
        = .ok (.int 0, Interpreter.new)) := by
  refine ⟨?_, ?_, rfl, fun _ _ => rfl⟩
  · intro f
    cases f <;> rfl
  · intro f
    cases f with
    | zero => rfl
    | succ g =>
      cases g with
      | zero => rfl
      | succ k =>
        have hE := pExpr_false_paren k
        simp only [pWhileLoop]
        rw [show pWsOpt ("false)\x7b\x7d".data) = ("false)\x7b\x7d".data) from rfl, hE]
        rfl

/-- Counterexample to C2 as stated: the source text `while(false)\x7b\x7d`
does not parse (with or without surrounding whitespace). -/
theorem while_loop_not_parseable_cex :
    parse "while(false)\x7b\x7d" = none ∧ parse " while(false)\x7b\x7d " = none :=
  ⟨rfl, rfl⟩

/-- Claim C3 (corrected).  `builtin_comment` does synthesize the help text
for the reserved name `help` (and only for it), but `Interpreter::get_ref`
never invokes it: a comment-reference read of `help` goes straight to the
comment table and fails with the undefined-comment error whenever no
comment named `help` is stored. -/
theorem help_not_intercepted :
    (∀ I : Interpreter, lookupAssoc I.comments "help" = none →
      get_ref I (.commentRef "help") = .error (.undefinedComment "help")) ∧
    (∀ I : Interpreter, builtin_comment I "help" = some (generate_help_text I)) ∧
    (∀ (I : Interpreter) (name : String), name ≠ "help" → builtin_comment I name = none) := by
  refine ⟨?_, ?_, ?_⟩
  · intro I h
    simp [get_ref, h]
  · intro I
    simp [builtin_comment]
  · intro I name h
    simp [builtin_comment, h]

/-- Witness for C3 at the fresh interpreter. -/
theorem help_not_intercepted_witness :
    get_ref Interpreter.new (.commentRef "help") = .error (.undefinedComment "help") ∧
    builtin_comment Interpreter.new "help" = some (generate_help_text Interpreter.new) ∧
    builtin_comment Interpreter.new "x" = none :=
  ⟨help_not_intercepted.1 Interpreter.new rfl,
   help_not_intercepted.2.1 Interpreter.new,
   help_not_intercepted.2.2 Interpreter.new "x" (by decide)⟩

/-- Counterexample to C3 as stated: on a fresh evaluator state, reading the
comment reference `#help` fails with the undefined-comment error instead of
yielding the synthesized help string. -/
theorem help_read_fails_cex :
    interp 1 Interpreter.new (.ref (.commentRef "help"))
      = .error (.undefinedComment "help") := rfl

/-- Claim C4 (corrected).  The round trip fails: `" 1 "` is a valid program
(it parses, and evaluates to `Int 1`), but its reassembly `"1\n"` is
rejected by the grammar at every fuel — the `block()` rule demands leading
whitespace, which `assemble_program` never emits — so
`parse (reassemble (parse p))` is a parse error, not an equivalent
program. -/
theorem round_trip_fails :
    parse " 1 " = some ⟨[.intLiteral 1]⟩ ∧
    interp 2 Interpreter.new (.block [.intLiteral 1]) = .ok (.int 1, Interpreter.new) ∧
    assemble_program ⟨[.intLiteral 1]⟩ = "1\n" ∧
    (∀ fuel, pBlock fuel ("1\n".data) = none) ∧
    parse "1\n" = none := by
  refine ⟨rfl, rfl, rfl, ?_, rfl⟩
  intro f
  cases f <;> rfl

/-- Counterexample to C4 as stated: the program `" 1 "` parses, but
re-parsing its reassembly fails, so the reassembler output is not always
re-parseable and no equivalent evaluation exists. -/
theorem round_trip_fails_cex :
    (parse " 1 ").isSome = true ∧
    ((parse " 1 ").bind (fun p => parse (assemble_program p))) = none :=
  ⟨rfl, rfl⟩

/-- Claim C5 (confirmed).  Assignment to a comment reference: the
right-hand side is evaluated first; if the name is stored and the value is
a string, the body is overwritten in place and the value is returned; a
stored name with a non-string value fails with the not-a-String error; an
absent name fails with the could-not-find-comment error.  Moreover no
evaluation step ever changes the comment-table key set, so no comment entry
is ever created at runtime. -/
theorem comment_assignment_semantics :
    (∀ (fuel : Nat) (I I' : Interpreter) (name : String) (rhs : Expr) (s : String),
      interp fuel I rhs = .ok (.string s, I') →
      (lookupAssoc I'.comments name).isSome = true →
      interp (fuel + 1) I (.assignment (.commentRef name) rhs)
        = .ok (.string s, { I' with comments := updateAssoc I'.comments name s })) ∧
    (∀ (fuel : Nat) (I I' : Interpreter) (name : String) (rhs : Expr) (v : Value),
      interp fuel I rhs = .ok (v, I') → (∀ s, v ≠ .string s) →
      (lookupAssoc I'.comments name).isSome = true →
      interp (fuel + 1) I (.assignment (.commentRef name) rhs) = .error (.notAString v)) ∧
    (∀ (fuel : Nat) (I I' : Interpreter) (name : String) (rhs : Expr) (v : Value),
      interp fuel I rhs = .ok (v, I') → lookupAssoc I'.comments name = none →
      interp (fuel + 1) I (.assignment (.commentRef name) rhs)
        = .error (.commentNotFound name)) ∧
    (∀ (fuel : Nat) (I : Interpreter) (e : Expr) (v : Value) (I' : Interpreter),
      interp fuel I e = .ok (v, I') → I'.comments.map Prod.fst = I.comments.map Prod.fst) := by
  refine ⟨?_, ?_, ?_, ?_⟩
  · intro fuel I I' name rhs s h hlook
    obtain ⟨b, hb⟩ := Option.isSome_iff_exists.mp hlook
    simp [interp, h, hb, as_str]
  · intro fuel I I' name rhs v h hv hlook
    obtain ⟨b, hb⟩ := Option.isSome_iff_exists.mp hlook
    have hstr : as_str v = .error (.notAString v) := by
      cases v
      case string s => exact absurd rfl (hv s)
      all_goals rfl
    simp [interp, h, hb, hstr]
  · intro fuel I I' name rhs v h hlook
    simp [interp, h, hlook]
  · intro fuel I e v I' h
    exact (comment_keys_preserved fuel).1 I e v I' h

/-- Witness for C5 on the table `[("c", "old")]`. -/
theorem comment_assignment_semantics_witness :
    interp 2 { Interpreter.new with comments := [("c", "old")] }
        (.assignment (.commentRef "c") (.comment ⟨none, "x"⟩))
      = .ok (.string "x", { Interpreter.new with comments := [("c", "x")] }) ∧
    interp 2 { Interpreter.new with comments := [("c", "old")] }
        (.assignment (.commentRef "c") (.intLiteral 5))
      = .error (.notAString (.int 5)) ∧
    interp 2 { Interpreter.new with comments := [("c", "old")] }
        (.assignment (.commentRef "d") (.comment ⟨none, "x"⟩))
      = .error (.commentNotFound "d") ∧
    ({ Interpreter.new with comments := [("c", "x")] } : Interpreter).comments.map Prod.fst
      = ({ Interpreter.new with comments := [("c", "old")] } : Interpreter).comments.map Prod.fst := by
  refine ⟨?_, ?_, ?_, ?_⟩
  · exact comment_assignment_semantics.1 1
      { Interpreter.new with comments := [("c", "old")] }
      { Interpreter.new with comments := [("c", "old")] } "c"
      (.comment ⟨none, "x"⟩) "x" rfl rfl
  · exact comment_assignment_semantics.2.1 1
      { Interpreter.new with comments := [("c", "old")] }
      { Interpreter.new with comments := [("c", "old")] } "c"
      (.intLiteral 5) (.int 5) rfl (fun s h => by cases h) rfl
  · exact comment_assignment_semantics.2.2.1 1
      { Interpreter.new with comments := [("c", "old")] }
      { Interpreter.new with comments := [("c", "old")] } "d"
      (.comment ⟨none, "x"⟩) (.string "x") rfl rfl
  · exact comment_assignment_semantics.2.2.2 2
      { Interpreter.new with comments := [("c", "old")] }
      (.assignment (.commentRef "c") (.comment ⟨none, "x"⟩)) (.string "x")
      { Interpreter.new with comments := [("c", "x")] } rfl

/-- Claim C6 (confirmed).  Seeding a named comment whose name is already
stored fails with the duplicate-name error (returning no new state, so the
table is unchanged); a program whose named-comment names repeat anywhere
makes seeding from a fresh interpreter fail with a duplicate-name error
before any evaluation; and any successfully seeded table has pairwise
distinct comment names. -/
theorem duplicate_comment_seeding :
    (∀ (I : Interpreter) (c : Comment) (n : String), c.name = some n →
      (lookupAssoc I.comments n).isSome = true →
      add_comment I c = .error (.duplicateComment n)) ∧
    (∀ p : Program, ¬ (namedNames (find_comments p)).Nodup →
      ∃ n, seed_program p = .error (.duplicateComment n)) ∧
    (∀ (p : Program) (I' : Interpreter), seed_program p = .ok I' →
      (I'.comments.map Prod.fst).Nodup) := by
  refine ⟨?_, ?_, ?_⟩
  · intro I c n hn hdup
    simp [add_comment, hn, hdup]
  · intro p hdup
    cases hseed : seed_program p with
    | ok I' =>
      exfalso
      apply hdup
      have h1 := seed_comments_ok_keys _ _ _ hseed
      have h2 := seed_comments_ok_nodup _ _ _ hseed (by simp [Interpreter.new])
      rw [h1] at h2
      simpa [Interpreter.new] using h2
    | error e =>
      obtain ⟨n, rfl⟩ := seed_comments_error_shape _ _ _ hseed
      exact ⟨n, rfl⟩
  · intro p I' h
    exact seed_comments_ok_nodup _ _ _ h (by simp [Interpreter.new])

/-- Witness for C6: a stored name rejects re-seeding; a program with two
comments named `a` fails to seed; a program with names `a`, `b` seeds to a
duplicate-free table. -/
theorem duplicate_comment_seeding_witness :
    add_comment { Interpreter.new with comments := [("a", "x")] } ⟨some "a", "y"⟩
        = .error (.duplicateComment "a") ∧
    (∃ n, seed_program ⟨[.comment ⟨some "a", "x"⟩, .comment ⟨some "a", "y"⟩]⟩
        = .error (.duplicateComment n)) ∧
    (({ Interpreter.new with comments := [("a", "x"), ("b", "y")] } : Interpreter).comments.map
        Prod.fst).Nodup := by
  refine ⟨?_, ?_, ?_⟩
  · exact duplicate_comment_seeding.1 _ ⟨some "a", "y"⟩ "a" rfl rfl
  · exact duplicate_comment_seeding.2.1 _ (by decide)
  · exact duplicate_comment_seeding.2.2 ⟨[.comment ⟨some "a", "x"⟩, .comment ⟨some "b", "y"⟩]⟩
      { Interpreter.new with comments := [("a", "x"), ("b", "y")] } rfl

/-- Claim C7 (corrected).  Calling a string value indexes into it, but the
position is the `i128` index cast `as usize`, i.e. reduced mod `2^64`: for
indices in `[0, 2^64)` the behaviour is as claimed (the one-character
string at that position, `Bool false` off the end, a type-mismatch error
for a non-Int first argument), and concretely `s(0)` is `"h"` and `s(5)` is
`false` when `s` holds `"hi"`; but out-of-range indices beyond `2^64` or
below `0` wrap instead of uniformly yielding `false`. -/
theorem string_call_indexes :
    (∀ (s : String) (i : Int), 0 ≤ i → i < 2 ^ 64 →
      indexString s [.int i] =
        match s.data[i.toNat]? with
        | some c => .ok (.string (String.mk [c]))
        | none => .ok (.bool false)) ∧
    (∀ (s : String) (v : Value), (∀ n, v ≠ .int n) →
      indexString s [v] = .error (.notAnInteger v)) ∧
    interp 3 hiInterp (.functionCall (.varRef "s") [.intLiteral 0])
      = .ok (.string "h", hiInterp) ∧
    interp 3 hiInterp (.functionCall (.varRef "s") [.intLiteral 5])
      = .ok (.bool false, hiInterp) := by
  refine ⟨?_, ?_, rfl, rfl⟩
  · intro s i h0 hlt
    rw [indexString_int, Int.emod_eq_of_lt h0 hlt]
  · intro s v h
    simp [indexString, get_arg, bind, Except.bind, as_num_of_not_int v h]

/-- Witness for C7 at `s = "hi"`, `i = 1` and a boolean argument. -/
theorem string_call_indexes_witness :
    indexString "hi" [.int 1] = .ok (.string "i") ∧
    indexString "hi" [.bool true] = .error (.notAnInteger (.bool true)) := by
  constructor
  · have h := string_call_indexes.1 "hi" 1 (by decide) (by decide)
    simpa using h
  · exact string_call_indexes.2.1 "hi" (.bool true) (fun n h => by cases h)

/-- Counterexample to C7 as stated: the negative index `-(2^64) + 1` is out
of range for `"hi"`, yet indexing returns the one-character string `"i"`
(the index truncates to `1`), not `Bool false`. -/
theorem string_call_indexes_cex :
    indexString "hi" [.int (-(2 ^ 64) + 1)] = .ok (.string "i") := rfl

/-- Claim C8 (confirmed).  The `eq` builtin returns the structural equality
of its two arguments as a `Bool`, and that equality is reflexive (for
string, map, int, function and bool values alike) and symmetric. -/
theorem eq_builtin_structural_refl_symm :
    (∀ a b : Value, eqCall [a, b] = .ok (.bool (valueBeq a b))) ∧
    (∀ a : Value, valueBeq a a = true) ∧
    (∀ a b : Value, valueBeq a b = valueBeq b a) :=
  ⟨fun _ _ => rfl, valueBeq_refl, valueBeq_symm⟩

/-- Claim C9 (confirmed).  `chr` takes the low byte of its `Int` argument
(the value mod `2^8` as an unsigned byte) and returns the one-character
string decoding that byte as UTF-8; it fails with the encoding error
exactly when the byte is `128` or above, and with the type-mismatch error
when the argument is not an `Int`. -/
theorem chr_low_byte_utf8 :
    (∀ n : Int,
      ((n % 256).toNat < 128 →
        chrCall [.int n] = .ok (.string (String.mk [Char.ofNat (n % 256).toNat]))) ∧
      (128 ≤ (n % 256).toNat → chrCall [.int n] = .error .invalidUtf8)) ∧
    (∀ v : Value, (∀ n, v ≠ .int n) → chrCall [v] = .error (.notAnInteger v)) := by
  constructor
  · intro n
    constructor
    · intro h
      simp [chrCall, get_arg, as_num, bind, Except.bind, h]
    · intro h
      simp [chrCall, get_arg, as_num, bind, Except.bind, Nat.not_lt.mpr h]
  · intro v h
    simp [chrCall, get_arg, bind, Except.bind, as_num_of_not_int v h]

/-- Witness for C9 at `65` (yields `"A"`), `200` (encoding error) and a
boolean argument (type mismatch). -/
theorem chr_low_byte_utf8_witness :
    chrCall [.int 65] = .ok (.string "A") ∧
    chrCall [.int 200] = .error .invalidUtf8 ∧
    chrCall [.bool true] = .error (.notAnInteger (.bool true)) := by
  refine ⟨?_, ?_, ?_⟩
  · have h := (chr_low_byte_utf8.1 65).1 (by decide)
    simpa using h
  · exact (chr_low_byte_utf8.1 200).2 (by decide)
  · exact chr_low_byte_utf8.2 (.bool true) (fun n h => by cases h)

/-- Claim C10 (confirmed).  String indexing truncates its 128-bit index to
the 64-bit machine word before the lookup: an index of `2^64` behaves
exactly like index `0` on every string, so `"hi"` indexed at `2^64` (or at
the negative `-(2^64)`) yields the one-character string `"h"` instead of
`Bool false` — also through a full evaluated call with `s` bound to
`"hi"`. -/
theorem string_index_truncates :
    (∀ s : String, indexString s [.int (2 ^ 64)] = indexString s [.int 0]) ∧
    indexString "hi" [.int (2 ^ 64)] = .ok (.string "h") ∧
    indexString "hi" [.int (-(2 ^ 64))] = .ok (.string "h") ∧
    interp 3 hiInterp (.functionCall (.varRef "s") [.intLiteral (2 ^ 64)])
      = .ok (.string "h", hiInterp) := by
  refine ⟨?_, rfl, rfl, rfl⟩
  intro s
  rw [indexString_int, indexString_int]
  rw [show ((2 : Int) ^ 64) % (2 ^ 64) = (0 : Int) % (2 ^ 64) by decide]

end Soldier
